import Mathlib

/-!
Shallow embedding of the two primitives of this repository:

* `RangeGauge` from src/foundations/src/telemetry/metrics/gauge.rs —
  a gauge over `u64` that additionally tracks the running minimum and
  maximum since the last read, resetting the range on every read.
  Machine integers are modelled as `Nat` with explicit reduction
  modulo `2 ^ 64` wherever the Rust `u64` arithmetic wraps
  (the underlying atomics `fetch_add` / `fetch_sub` always wrap).

* the shared-log internals from src/bedrock/src/telemetry/log/internal.rs —
  `current_log`, `add_log_fields`, `fork` and the RAII `LogScope`.
  The reference-counted `Arc<parking_lot::RwLock<Logger>>` cells are
  modelled as indices into an explicit heap of logger cells, so that
  aliasing (two references to the same cell) is expressible.
  The generic context stack (`CurrentContextHandle`) is not under src/,
  so its push/pop/peek behaviour is modelled from the spec.
-/

/-- Modulus of the Rust `u64` type. -/
def U64MOD : Nat := 2 ^ 64

/-- Wrapping `u64` addition, as performed by `AtomicU64::fetch_add` and by
release-mode `prev + v`. -/
def wadd (a b : Nat) : Nat := (a + b) % U64MOD

/-- Wrapping `u64` subtraction, as performed by `AtomicU64::fetch_sub` and by
release-mode `prev - v`. -/
def wsub (a b : Nat) : Nat := (a + (U64MOD - b % U64MOD)) % U64MOD

/-- State of a `RangeGauge`: the inner `Gauge<u64, AtomicU64>` value plus the
two extremum cells `min` and `max` (gauge.rs lines 14-18). Every field
holds a `u64`, i.e. a natural number below `U64MOD`. -/
structure RangeGauge where
  gauge : Nat
  min : Nat
  max : Nat
deriving Repr, DecidableEq

/-- The `Default` instance of `RangeGauge`: all three cells start at 0. -/
def RangeGauge.new : RangeGauge := ⟨0, 0, 0⟩

/-- Single-threaded meaning of `RangeGauge::update_max` (gauge.rs lines 21-41):
the CAS loop's guard `current_max < new_max` decides whether the candidate
is installed; with no interference the first CAS attempt succeeds. -/
def RangeGauge.update_max (rg : RangeGauge) (new_max : Nat) : RangeGauge :=
  if rg.max < new_max then ⟨rg.gauge, rg.min, new_max⟩ else rg

/-- Single-threaded meaning of `RangeGauge::update_min` (gauge.rs lines 43-63):
the guard is `current_min > new_min`. -/
def RangeGauge.update_min (rg : RangeGauge) (new_min : Nat) : RangeGauge :=
  if new_min < rg.min then ⟨rg.gauge, new_min, rg.max⟩ else rg

/-- `RangeGauge::inc_by` (gauge.rs lines 70-75): the inner gauge is bumped by
`v` (wrapping `fetch_add`, returning the previous value), then
`update_max(prev + v)` runs. Returns `(previous value, new state)`. -/
def RangeGauge.inc_by (rg : RangeGauge) (v : Nat) : Nat × RangeGauge :=
  let prev := rg.gauge
  let bumped : RangeGauge := ⟨wadd rg.gauge v, rg.min, rg.max⟩
  (prev, bumped.update_max (wadd prev v))

/-- `RangeGauge::inc` (gauge.rs lines 66-68): `inc_by(1)`. -/
def RangeGauge.inc (rg : RangeGauge) : Nat × RangeGauge := rg.inc_by 1

/-- `RangeGauge::dec_by` (gauge.rs lines 82-87): the inner gauge is lowered by
`v` (wrapping `fetch_sub`, returning the previous value), then
`update_min(prev - v)` runs. -/
def RangeGauge.dec_by (rg : RangeGauge) (v : Nat) : Nat × RangeGauge :=
  let prev := rg.gauge
  let lowered : RangeGauge := ⟨wsub rg.gauge v, rg.min, rg.max⟩
  (prev, lowered.update_min (wsub prev v))

/-- `RangeGauge::dec` (gauge.rs lines 77-80): `dec_by(1)`. -/
def RangeGauge.dec (rg : RangeGauge) : Nat × RangeGauge := rg.dec_by 1

/-- `RangeGauge::set` (gauge.rs lines 89-95): stores `v`, then runs
`update_max(v)` followed by `update_min(v)`. -/
def RangeGauge.set (rg : RangeGauge) (v : Nat) : Nat × RangeGauge :=
  let prev := rg.gauge
  let stored : RangeGauge := ⟨v % U64MOD, rg.min, rg.max⟩
  (prev, (stored.update_max (v % U64MOD)).update_min (v % U64MOD))

/-- `RangeGauge::get` (gauge.rs lines 97-100). -/
def RangeGauge.get (rg : RangeGauge) : Nat := rg.gauge

/-- `<RangeGauge as EncodeMetric>::encode` (gauge.rs lines 115-146), viewed as
the read-for-encode operation: reads the current value, swaps it into both
extremum cells, and emits `(value, old min, old max)`. (The encoder calls
`self.get()` a second time for the emitted value; single-threaded this is
the same `current`.) Returns the emitted triple and the post-read state. -/
def RangeGauge.encode (rg : RangeGauge) : (Nat × Nat × Nat) × RangeGauge :=
  let current := rg.get
  let oldMin := rg.min
  let oldMax := rg.max
  ((rg.get, oldMin, oldMax), ⟨rg.gauge, current, current⟩)

/-- Update operations of a `RangeGauge`, for reasoning about call sequences. -/
inductive GOp where
  | incBy (v : Nat)
  | decBy (v : Nat)
  | setTo (v : Nat)
  | inc
  | dec
deriving Repr, DecidableEq

/-- Apply one update operation (discarding the returned previous value). -/
def GOp.apply (rg : RangeGauge) : GOp → RangeGauge
  | .incBy v => (rg.inc_by v).2
  | .decBy v => (rg.dec_by v).2
  | .setTo v => (rg.set v).2
  | .inc => rg.inc.2
  | .dec => rg.dec.2

/-- Apply a sequence of update operations, first operation first. -/
def GOp.applyAll (rg : RangeGauge) : List GOp → RangeGauge
  | [] => rg
  | op :: ops => GOp.applyAll (op.apply rg) ops

/-- Every value the gauge holds along a call sequence: the starting value and
the value after each operation. -/
def GOp.traceValues (rg : RangeGauge) : List GOp → List Nat
  | [] => [rg.gauge]
  | op :: ops => rg.gauge :: GOp.traceValues (op.apply rg) ops

example : (RangeGauge.new.inc_by 3).2 = ⟨3, 0, 3⟩ := by decide
example : ((RangeGauge.new.inc_by 3).2.dec_by 2).2 = ⟨1, 0, 3⟩ := by decide
example : (RangeGauge.new.dec_by 1).2.gauge = 2 ^ 64 - 1 := by decide

/-- CAS retry loop of `RangeGauge::update_max` (gauge.rs lines 21-41), with
interference made explicit: `intf` lists the values a failed
`compare_exchange` observes, in order (each failure consumes one entry; an
exhausted list means the next attempt succeeds). Returns the resulting
extremum cell value, the number of CAS attempts made, and whether the
candidate was installed. -/
def maxCasLoop (new_max : Nat) : Nat → List Nat → Nat × Nat × Bool
  | cur, [] => if cur < new_max then (new_max, 1, true) else (cur, 0, false)
  | cur, e :: rest =>
    if cur < new_max then
      let r := maxCasLoop new_max e rest
      (r.1, r.2.1 + 1, r.2.2)
    else (cur, 0, false)

/-- CAS retry loop of `RangeGauge::update_min` (gauge.rs lines 43-63), with
interference made explicit as in maxCasLoop. -/
def minCasLoop (new_min : Nat) : Nat → List Nat → Nat × Nat × Bool
  | cur, [] => if new_min < cur then (new_min, 1, true) else (cur, 0, false)
  | cur, e :: rest =>
    if new_min < cur then
      let r := minCasLoop new_min e rest
      (r.1, r.2.1 + 1, r.2.2)
    else (cur, 0, false)

/-- Opaquely modelled payload of one structured log field (the `OwnedKV`
argument of `add_log_fields`; its internal structure is irrelevant here). -/
abbrev LogField := Nat

/-- Logger of the logging backend collaborator: its observable state is its
set of structured fields. -/
structure Logger where
  fields : List LogField
deriving Repr, DecidableEq

/-- Modelled from the spec: the logging backend's "derive a new logger with
additional structured fields" operation (`slog::Logger::new`), used by
`add_log_fields` and `fork`; the child carries the parent's fields plus the
new ones. -/
def Logger.child (l : Logger) (fs : List LogField) : Logger := ⟨fs ++ l.fields⟩

/-- Reference to one `Arc<parking_lot::RwLock<Logger>>` cell: an index into
an explicit heap of cells. Cloning the `Arc` yields the same index, so
aliasing is equality of indices. -/
abbrev LogRef := Nat

/-- State visible to internal.rs: the heap of shared logger cells, the
harness's `root_log`, and the calling context's `log_ctx_stack`
(top of stack first). -/
structure LogState where
  cells : List Logger
  root : LogRef
  stack : List LogRef
deriving Repr, DecidableEq

/-- Modelled from the spec: `ContextStack::current` returns the most recently
pushed value not yet popped, or nothing if the stack is empty. -/
def LogState.stackCurrent (st : LogState) : Option LogRef := st.stack.head?

/-- Read the logger held in a cell (acquiring the read lock). An out-of-range
reference never occurs in well-formed states; it reads as an empty logger. -/
def LogState.readLog (st : LogState) (r : LogRef) : Logger := st.cells.getD r ⟨[]⟩

/-- Overwrite the logger held in a cell (under the write lock). -/
def LogState.writeLog (st : LogState) (r : LogRef) (l : Logger) : LogState :=
  ⟨st.cells.set r l, st.root, st.stack⟩

/-- `current_log` (internal.rs lines 34-40): the top of the calling context's
stack if non-empty, else the process-wide root log. Total: it cannot fail. -/
def LogState.current_log (st : LogState) : LogRef := st.stackCurrent.getD st.root

/-- `add_log_fields` (internal.rs lines 23-32): resolves the current log,
takes the write lock, and replaces the held logger with a derived logger
carrying the extra fields. -/
def LogState.add_log_fields (st : LogState) (fs : List LogField) : LogState :=
  let r := st.current_log
  st.writeLog r ((st.readLog r).child fs)

/-- `fork` (internal.rs lines 42-47): reads the current log, derives a child
with no extra fields, and wraps it in a brand-new independently-lockable
cell. Returns the new reference and the new state. -/
def LogState.fork (st : LogState) : LogRef × LogState :=
  let parent := st.current_log
  let l := (st.readLog parent).child []
  (st.cells.length, ⟨st.cells ++ [l], st.root, st.stack⟩)

/-- Push performed by `LogScope::new` / `CurrentContextHandle::new`
(internal.rs lines 10-21); modelled from the spec's push contract. -/
def LogState.pushScope (st : LogState) (r : LogRef) : LogState :=
  ⟨st.cells, st.root, r :: st.stack⟩

/-- Pop performed when a `LogScope` is dropped; modelled from the spec's
strict stack-top-only removal contract. -/
def LogState.popScope (st : LogState) : LogState :=
  ⟨st.cells, st.root, st.stack.tail⟩

/-- Well-nested client programs against the scope interface: the only ways to
touch the stack are entering a scope (push on entry, pop on every exit path)
and failing (an error that unwinds). `act` covers scope-body work that does
not touch the stack (e.g. field mutation). -/
inductive ScopeProg where
  | skip
  | act (f : LogState → LogState)
  | fail
  | seq (p q : ScopeProg)
  | enter (r : LogRef) (body : ScopeProg)

/-- Run a well-nested program. The boolean is true when the program finished
normally and false when an error is unwinding; `seq` skips its second part
during unwinding, and `enter` pops on both the normal and the error exit
path — that is the RAII guarantee of `LogScope`/`CurrentContextHandle`. -/
def ScopeProg.run : ScopeProg → LogState → Bool × LogState
  | .skip, st => (true, st)
  | .act f, st => (true, ⟨(f st).cells, (f st).root, st.stack⟩)
  | .fail, st => (false, st)
  | .seq p q, st =>
    let r := p.run st
    if r.1 then q.run r.2 else (false, r.2)
  | .enter v body, st =>
    let r := body.run (st.pushScope v)
    (r.1, r.2.popScope)

example : (LogState.fork ⟨[⟨[1]⟩], 0, []⟩).1 = 1 := by decide
example :
    LogState.add_log_fields ⟨[⟨[1]⟩], 0, []⟩ [2] = ⟨[⟨[2, 1]⟩], 0, []⟩ := by
  decide
example :
    (ScopeProg.run (.enter 7 (.seq (.act (fun st => st.add_log_fields [3])) .fail))
      ⟨[⟨[]⟩], 0, []⟩).2.stack = [] := by
  decide

/-- Per-operation condition that the u64 arithmetic of the operation does not
wrap, as a decidable check on the state the operation runs in. -/
def GOp.okAt (rg : RangeGauge) : GOp → Bool
  | .incBy v => rg.gauge + v < U64MOD
  | .decBy v => v ≤ rg.gauge
  | .setTo v => v < U64MOD
  | .inc => rg.gauge + 1 < U64MOD
  | .dec => 1 ≤ rg.gauge

/-- Condition that no operation of the sequence wraps, checked along the run. -/
def GOp.noWrap (rg : RangeGauge) : List GOp → Bool
  | [] => true
  | op :: ops => op.okAt rg && GOp.noWrap (op.apply rg) ops

/-- Between-reads invariant of a `RangeGauge`, plus the u64 range bound on the
extremum cells. -/
def RangeGauge.inv (rg : RangeGauge) : Bool :=
  decide (rg.min ≤ rg.gauge) && decide (rg.gauge ≤ rg.max) && decide (rg.max < U64MOD)

lemma u64mod_pos : 0 < U64MOD := by decide

lemma wadd_no_wrap (a b : Nat) (h : a + b < U64MOD) : wadd a b = a + b := by
  unfold wadd
  exact Nat.mod_eq_of_lt h

lemma wsub_no_wrap (a b : Nat) (hb : b ≤ a) (ha : a < U64MOD) : wsub a b = a - b := by
  have hbm : b % U64MOD = b := Nat.mod_eq_of_lt (lt_of_le_of_lt hb ha)
  unfold wsub
  rw [hbm]
  have h1 : a + (U64MOD - b) = U64MOD + (a - b) := by omega
  rw [h1, Nat.add_mod_left, Nat.mod_eq_of_lt (by omega)]

lemma wsub_wrap (a b : Nat) (hab : a < b) (hb : b < U64MOD) : wsub a b = a + (U64MOD - b) := by
  have hbm : b % U64MOD = b := Nat.mod_eq_of_lt hb
  unfold wsub
  rw [hbm]
  exact Nat.mod_eq_of_lt (by omega)

lemma inv_iff (rg : RangeGauge) :
    rg.inv = true ↔ rg.min ≤ rg.gauge ∧ rg.gauge ≤ rg.max ∧ rg.max < U64MOD := by
  simp [RangeGauge.inv, and_assoc]

lemma update_max_eq (rg : RangeGauge) (c : Nat) :
    rg.update_max c = ⟨rg.gauge, rg.min, max rg.max c⟩ := by
  unfold RangeGauge.update_max
  rcases Nat.lt_or_ge rg.max c with h | h
  · rw [if_pos h, max_eq_right (le_of_lt h)]
  · rw [if_neg (Nat.not_lt.mpr h), max_eq_left h]

lemma update_min_eq (rg : RangeGauge) (c : Nat) :
    rg.update_min c = ⟨rg.gauge, min rg.min c, rg.max⟩ := by
  unfold RangeGauge.update_min
  rcases Nat.lt_or_ge c rg.min with h | h
  · rw [if_pos h, min_eq_right (le_of_lt h)]
  · rw [if_neg (Nat.not_lt.mpr h), min_eq_left h]

/-- C1: the per-operation state-transition table of the gauge, with all
arithmetic understood in u64 (i.e. modulo `U64MOD`). -/
theorem rangeGauge_op_table (rg : RangeGauge) (v : Nat) (hv : v < U64MOD) :
    (rg.inc_by v =
      (rg.gauge, ⟨(rg.gauge + v) % U64MOD, rg.min, max rg.max ((rg.gauge + v) % U64MOD)⟩)) ∧
    (rg.dec_by v =
      (rg.gauge,
        ⟨(rg.gauge + (U64MOD - v)) % U64MOD,
         min rg.min ((rg.gauge + (U64MOD - v)) % U64MOD), rg.max⟩)) ∧
    (rg.set v = (rg.gauge, ⟨v, min rg.min v, max rg.max v⟩)) ∧
    (rg.inc = rg.inc_by 1) ∧
    (rg.dec = rg.dec_by 1) := by
  have hvm : v % U64MOD = v := Nat.mod_eq_of_lt hv
  refine ⟨?_, ?_, ?_, rfl, rfl⟩
  · simp [RangeGauge.inc_by, update_max_eq, wadd]
  · simp [RangeGauge.dec_by, update_min_eq, wsub, hvm]
  · simp [RangeGauge.set, update_max_eq, update_min_eq, hvm]

/-- Witness for C1 at the concrete state `(5, 2, 7)` and `v = 3`. -/
theorem rangeGauge_op_table_witness :
    (3 < U64MOD) ∧
      (RangeGauge.set ⟨5, 2, 7⟩ 3 = (5, ⟨3, min 2 3, max 7 3⟩)) :=
  ⟨by decide, (rangeGauge_op_table ⟨5, 2, 7⟩ 3 (by decide)).2.2.1⟩

/-- C3: a read-for-encode emits the current value together with the
accumulated min and max, leaves the value in place, resets both internal
extremum cells to the just-read value, and an immediate second read emits
`(value, value, value)`. -/
theorem rangeGauge_encode_resets (rg : RangeGauge) :
    (rg.encode.1 = (rg.gauge, rg.min, rg.max)) ∧
    (rg.encode.2 = ⟨rg.gauge, rg.gauge, rg.gauge⟩) ∧
    (rg.encode.2.min = rg.encode.1.1 ∧ rg.encode.2.max = rg.encode.1.1) ∧
    (rg.encode.2.encode.1 = (rg.gauge, rg.gauge, rg.gauge)) := by
  refine ⟨rfl, rfl, ⟨rfl, rfl⟩, rfl⟩

/-- C4: the concrete single-threaded trace of the spec's example (and of the
test `test_rangegauge_values`): each read emits `(value, min, max)` and
resets the range. -/
theorem rangeGauge_example_trace :
    (RangeGauge.new.inc.2.encode.1 = (1, 0, 1)) ∧
    (RangeGauge.new.inc.2.encode.2.encode.1 = (1, 1, 1)) ∧
    (RangeGauge.new.inc.2.encode.2.encode.2.dec.2.encode.1 = (0, 0, 1)) ∧
    (RangeGauge.new.inc.2.encode.2.encode.2.dec.2.encode.2.encode.1 = (0, 0, 0)) ∧
    (((RangeGauge.new.inc.2.encode.2.encode.2.dec.2.encode.2.encode.2.inc_by
        3).2.dec_by 2).2.encode.1 = (1, 0, 3)) ∧
    (((((RangeGauge.new.inc.2.encode.2.encode.2.dec.2.encode.2.encode.2.inc_by
        3).2.dec_by 2).2.encode.2.inc_by 1).2.dec_by 2).2.encode.1 = (0, 0, 2)) := by
  decide

/-- C10: the gauge's u64 arithmetic is modular. A decrement below zero and an
increment past `2 ^ 64 - 1` wrap modulo `2 ^ 64` (no saturation, no clamp,
no error — the operations are total), and the wrapped decrement candidate,
being at least `2 ^ 64 - v`, never lowers `min` in a state where
`min <= value`. -/
theorem rangeGauge_wraps_mod_2_64 (rg : RangeGauge) (v : Nat)
    (hg : rg.gauge < U64MOD) (hv : v < U64MOD) :
    ((rg.dec_by v).2.gauge = (rg.gauge + (U64MOD - v)) % U64MOD ∧
     (rg.inc_by v).2.gauge = (rg.gauge + v) % U64MOD) ∧
    (rg.gauge < v →
      (rg.dec_by v).2.gauge = rg.gauge + (U64MOD - v) ∧
      U64MOD - v ≤ (rg.dec_by v).2.gauge ∧
      (rg.min ≤ rg.gauge → (rg.dec_by v).2.min = rg.min)) ∧
    (U64MOD ≤ rg.gauge + v →
      (rg.inc_by v).2.gauge = rg.gauge + v - U64MOD) := by
  have hvm : v % U64MOD = v := Nat.mod_eq_of_lt hv
  refine ⟨⟨?_, ?_⟩, ?_, ?_⟩
  · simp [RangeGauge.dec_by, update_min_eq, wsub, hvm]
  · simp [RangeGauge.inc_by, update_max_eq, wadd]
  · intro hlt
    have hw : wsub rg.gauge v = rg.gauge + (U64MOD - v) := wsub_wrap rg.gauge v hlt hv
    refine ⟨?_, ?_, ?_⟩
    · simp [RangeGauge.dec_by, update_min_eq, hw]
    · simp [RangeGauge.dec_by, update_min_eq, hw]
    · intro hmin
      have hge : rg.min ≤ wsub rg.gauge v := by
        rw [hw]; omega
      simp [RangeGauge.dec_by, update_min_eq, min_eq_left hge]
  · intro hge
    have : (rg.gauge + v) % U64MOD = rg.gauge + v - U64MOD := by
      rw [Nat.mod_eq_sub_mod hge, Nat.mod_eq_of_lt (by omega)]
    simp [RangeGauge.inc_by, update_max_eq, wadd, this]

/-- Witness for C10: decrementing a fresh gauge (value 0) by 1 wraps to
`2 ^ 64 - 1` and leaves `min` at 0. -/
theorem rangeGauge_wraps_mod_2_64_witness :
    (0 < U64MOD ∧ 1 < U64MOD) ∧
      (RangeGauge.dec_by RangeGauge.new 1).2.gauge = 0 + (U64MOD - 1) ∧
      (RangeGauge.dec_by RangeGauge.new 1).2.min = 0 :=
  ⟨⟨by decide, by decide⟩,
    by
      have h := (rangeGauge_wraps_mod_2_64 RangeGauge.new 1 (by decide)
        (by decide)).2.1 (by decide)
      exact ⟨h.1, h.2.2 (by decide)⟩⟩

lemma maxCasLoop_spec (c : Nat) :
    ∀ (intf : List Nat) (cur : Nat),
      (maxCasLoop c cur intf).2.1 ≤ intf.length + 1 ∧
      ((maxCasLoop c cur intf).2.2 = true ∧ (maxCasLoop c cur intf).1 = c ∨
       (maxCasLoop c cur intf).2.2 = false ∧ c ≤ (maxCasLoop c cur intf).1) := by
  intro intf
  induction intf with
  | nil =>
    intro cur
    rcases Nat.lt_or_ge cur c with h | h
    · simp [maxCasLoop, if_pos h]
    · simp [maxCasLoop, if_neg (Nat.not_lt.mpr h), h]
  | cons e rest ih =>
    intro cur
    rcases Nat.lt_or_ge cur c with h | h
    · obtain ⟨hlen, hdich⟩ := ih e
      simp only [maxCasLoop, if_pos h, List.length_cons]
      exact ⟨by omega, hdich⟩
    · simp [maxCasLoop, if_neg (Nat.not_lt.mpr h), h]

lemma minCasLoop_spec (c : Nat) :
    ∀ (intf : List Nat) (cur : Nat),
      (minCasLoop c cur intf).2.1 ≤ intf.length + 1 ∧
      ((minCasLoop c cur intf).2.2 = true ∧ (minCasLoop c cur intf).1 = c ∨
       (minCasLoop c cur intf).2.2 = false ∧ (minCasLoop c cur intf).1 ≤ c) := by
  intro intf
  induction intf with
  | nil =>
    intro cur
    rcases Nat.lt_or_ge c cur with h | h
    · simp [minCasLoop, if_pos h]
    · simp [minCasLoop, if_neg (Nat.not_lt.mpr h), h]
  | cons e rest ih =>
    intro cur
    rcases Nat.lt_or_ge c cur with h | h
    · obtain ⟨hlen, hdich⟩ := ih e
      simp only [minCasLoop, if_pos h, List.length_cons]
      exact ⟨by omega, hdich⟩
    · simp [minCasLoop, if_neg (Nat.not_lt.mpr h), h]

/-- C5: both CAS retry loops terminate on every input. For any starting cell
value and any finite sequence of interfering values observed at failed CAS
attempts, the loop makes at most `intf.length + 1` attempts, and it exits
either by installing the candidate or upon observing a cell value at least
as extreme as the candidate; with no interference (the single-threaded
case) it makes at most one attempt. -/
theorem rangeGauge_cas_loops_terminate (c cur : Nat) (intf : List Nat) :
    ((maxCasLoop c cur intf).2.1 ≤ intf.length + 1 ∧
     ((maxCasLoop c cur intf).2.2 = true ∧ (maxCasLoop c cur intf).1 = c ∨
      (maxCasLoop c cur intf).2.2 = false ∧ c ≤ (maxCasLoop c cur intf).1) ∧
     (maxCasLoop c cur []).2.1 ≤ 1) ∧
    ((minCasLoop c cur intf).2.1 ≤ intf.length + 1 ∧
     ((minCasLoop c cur intf).2.2 = true ∧ (minCasLoop c cur intf).1 = c ∨
      (minCasLoop c cur intf).2.2 = false ∧ (minCasLoop c cur intf).1 ≤ c) ∧
     (minCasLoop c cur []).2.1 ≤ 1) :=
  ⟨⟨(maxCasLoop_spec c intf cur).1, (maxCasLoop_spec c intf cur).2,
     (maxCasLoop_spec c [] cur).1⟩,
   ⟨(minCasLoop_spec c intf cur).1, (minCasLoop_spec c intf cur).2,
     (minCasLoop_spec c [] cur).1⟩⟩

lemma encode_emits_min (rg : RangeGauge) : rg.encode.1.2.1 = rg.min := rfl

lemma encode_emits_max (rg : RangeGauge) : rg.encode.1.2.2 = rg.max := rfl

lemma inc_by_eq (rg : RangeGauge) (v : Nat) :
    rg.inc_by v = (rg.gauge, ⟨wadd rg.gauge v, rg.min, max rg.max (wadd rg.gauge v)⟩) := by
  show (rg.gauge,
    RangeGauge.update_max ⟨wadd rg.gauge v, rg.min, rg.max⟩ (wadd rg.gauge v)) = _
  rw [update_max_eq]

lemma dec_by_eq (rg : RangeGauge) (v : Nat) :
    rg.dec_by v = (rg.gauge, ⟨wsub rg.gauge v, min rg.min (wsub rg.gauge v), rg.max⟩) := by
  show (rg.gauge,
    RangeGauge.update_min ⟨wsub rg.gauge v, rg.min, rg.max⟩ (wsub rg.gauge v)) = _
  rw [update_min_eq]

lemma set_eq (rg : RangeGauge) (v : Nat) :
    rg.set v =
      (rg.gauge,
        ⟨v % U64MOD, min rg.min (v % U64MOD), max rg.max (v % U64MOD)⟩) := by
  show (rg.gauge,
    RangeGauge.update_min
      (RangeGauge.update_max ⟨v % U64MOD, rg.min, rg.max⟩ (v % U64MOD))
      (v % U64MOD)) = _
  rw [update_max_eq, update_min_eq]

lemma apply_incBy_eq (rg : RangeGauge) (v : Nat) :
    (GOp.incBy v).apply rg = ⟨wadd rg.gauge v, rg.min, max rg.max (wadd rg.gauge v)⟩ := by
  show (rg.inc_by v).2 = _
  rw [inc_by_eq]

lemma apply_decBy_eq (rg : RangeGauge) (v : Nat) :
    (GOp.decBy v).apply rg = ⟨wsub rg.gauge v, min rg.min (wsub rg.gauge v), rg.max⟩ := by
  show (rg.dec_by v).2 = _
  rw [dec_by_eq]

lemma apply_setTo_eq (rg : RangeGauge) (v : Nat) :
    (GOp.setTo v).apply rg =
      ⟨v % U64MOD, min rg.min (v % U64MOD), max rg.max (v % U64MOD)⟩ := by
  show (rg.set v).2 = _
  rw [set_eq]

lemma apply_inc_eq (rg : RangeGauge) :
    GOp.inc.apply rg = ⟨wadd rg.gauge 1, rg.min, max rg.max (wadd rg.gauge 1)⟩ := by
  show (rg.inc_by 1).2 = _
  rw [inc_by_eq]

lemma apply_dec_eq (rg : RangeGauge) :
    GOp.dec.apply rg = ⟨wsub rg.gauge 1, min rg.min (wsub rg.gauge 1), rg.max⟩ := by
  show (rg.dec_by 1).2 = _
  rw [dec_by_eq]

lemma apply_min_le (rg : RangeGauge) (op : GOp) : (op.apply rg).min ≤ rg.min := by
  cases op with
  | incBy v => rw [apply_incBy_eq]
  | decBy v => rw [apply_decBy_eq]; exact min_le_left _ _
  | setTo v => rw [apply_setTo_eq]; exact min_le_left _ _
  | inc => rw [apply_inc_eq]
  | dec => rw [apply_dec_eq]; exact min_le_left _ _

lemma apply_max_ge (rg : RangeGauge) (op : GOp) : rg.max ≤ (op.apply rg).max := by
  cases op with
  | incBy v => rw [apply_incBy_eq]; exact le_max_left _ _
  | decBy v => rw [apply_decBy_eq]
  | setTo v => rw [apply_setTo_eq]; exact le_max_left _ _
  | inc => rw [apply_inc_eq]; exact le_max_left _ _
  | dec => rw [apply_dec_eq]

lemma applyAll_min_le (ops : List GOp) :
    ∀ rg : RangeGauge, (GOp.applyAll rg ops).min ≤ rg.min := by
  induction ops with
  | nil => intro rg; exact le_refl _
  | cons op ops ih =>
    intro rg
    exact le_trans (ih (op.apply rg)) (apply_min_le rg op)

lemma applyAll_max_ge (ops : List GOp) :
    ∀ rg : RangeGauge, rg.max ≤ (GOp.applyAll rg ops).max := by
  induction ops with
  | nil => intro rg; exact le_refl _
  | cons op ops ih =>
    intro rg
    exact le_trans (apply_max_ge rg op) (ih (op.apply rg))

lemma inv_mk (g m x : Nat) :
    (⟨g, m, x⟩ : RangeGauge).inv = true ↔ m ≤ g ∧ g ≤ x ∧ x < U64MOD :=
  inv_iff ⟨g, m, x⟩

lemma apply_inv (rg : RangeGauge) (op : GOp) (hok : op.okAt rg = true)
    (hinv : rg.inv = true) : (op.apply rg).inv = true := by
  rw [inv_iff] at hinv
  obtain ⟨h1, h2, h3⟩ := hinv
  cases op with
  | incBy v =>
    have hok' : rg.gauge + v < U64MOD := of_decide_eq_true hok
    rw [apply_incBy_eq, inv_mk, wadd_no_wrap _ _ hok']
    exact ⟨h1.trans (Nat.le_add_right _ _), le_max_right _ _, max_lt h3 hok'⟩
  | decBy v =>
    have hok' : v ≤ rg.gauge := of_decide_eq_true hok
    rw [apply_decBy_eq, inv_mk, wsub_no_wrap _ _ hok' (lt_of_le_of_lt h2 h3)]
    exact ⟨min_le_right _ _, le_trans (Nat.sub_le _ _) h2, h3⟩
  | setTo v =>
    have hok' : v < U64MOD := of_decide_eq_true hok
    rw [apply_setTo_eq, inv_mk, Nat.mod_eq_of_lt hok']
    exact ⟨min_le_right _ _, le_max_right _ _, max_lt h3 hok'⟩
  | inc =>
    have hok' : rg.gauge + 1 < U64MOD := of_decide_eq_true hok
    rw [apply_inc_eq, inv_mk, wadd_no_wrap _ _ hok']
    exact ⟨h1.trans (Nat.le_add_right _ _), le_max_right _ _, max_lt h3 hok'⟩
  | dec =>
    have hok' : 1 ≤ rg.gauge := of_decide_eq_true hok
    rw [apply_dec_eq, inv_mk, wsub_no_wrap _ _ hok' (lt_of_le_of_lt h2 h3)]
    exact ⟨min_le_right _ _, le_trans (Nat.sub_le _ _) h2, h3⟩

/-- C2 counterexample: on a fresh gauge the single call `dec_by(1)` wraps the
value to `2 ^ 64 - 1` while leaving `max = 0`, so the emitted min/max of the
next read do not bracket the values the gauge held, and the between-reads
state violates `value <= max`. -/
theorem rangeGauge_bracketing_counterexample :
    ¬ (∀ x ∈ GOp.traceValues RangeGauge.new [GOp.decBy 1],
        (GOp.applyAll RangeGauge.new [GOp.decBy 1]).encode.1.2.1 ≤ x ∧
        x ≤ (GOp.applyAll RangeGauge.new [GOp.decBy 1]).encode.1.2.2) ∧
    ¬ ((GOp.applyAll RangeGauge.new [GOp.decBy 1]).gauge ≤
        (GOp.applyAll RangeGauge.new [GOp.decBy 1]).max) := by
  constructor
  · intro h
    exact absurd (h (2 ^ 64 - 1) (by decide)).2 (by decide)
  · decide

/-- C2 (amended): for every single-threaded sequence of update calls in which
no operation wraps the u64 arithmetic, starting from any state satisfying
the between-reads invariant (a fresh gauge or any post-read state), the
invariant `min <= value <= max` is maintained, and the min and max emitted
by the next read-for-encode bracket every value the gauge held along the
sequence, intermediate values included. -/
theorem rangeGauge_bracketing_no_wrap (rg : RangeGauge) (ops : List GOp)
    (hinv : rg.inv = true) (hnw : GOp.noWrap rg ops = true) :
    ((GOp.applyAll rg ops).inv = true) ∧
    ∀ x ∈ GOp.traceValues rg ops,
      (GOp.applyAll rg ops).encode.1.2.1 ≤ x ∧
      x ≤ (GOp.applyAll rg ops).encode.1.2.2 := by
  simp only [encode_emits_min, encode_emits_max]
  induction ops generalizing rg with
  | nil =>
    refine ⟨hinv, ?_⟩
    intro x hx
    rw [inv_iff] at hinv
    simp only [GOp.traceValues, List.mem_singleton] at hx
    subst hx
    exact ⟨hinv.1, hinv.2.1⟩
  | cons op ops ih =>
    obtain ⟨hok, hnw'⟩ : op.okAt rg = true ∧ GOp.noWrap (op.apply rg) ops = true := by
      rw [GOp.noWrap, Bool.and_eq_true] at hnw
      exact hnw
    have hinv' := apply_inv rg op hok hinv
    obtain ⟨hfin, hbr⟩ := ih (op.apply rg) hinv' hnw'
    simp only [GOp.applyAll, GOp.traceValues]
    refine ⟨hfin, ?_⟩
    intro x hx
    rcases List.mem_cons.mp hx with hx | hx
    · subst hx
      rw [inv_iff] at hinv
      constructor
      · exact le_trans (le_trans (applyAll_min_le ops (op.apply rg))
          (apply_min_le rg op)) hinv.1
      · exact le_trans hinv.2.1 (le_trans (apply_max_ge rg op)
          (applyAll_max_ge ops (op.apply rg)))
    · exact hbr x hx

/-- Witness for the amended C2 on the sequence `inc_by(3); dec_by(2)` from a
fresh gauge: the emitted range brackets the intermediate peak value 3. -/
theorem rangeGauge_bracketing_no_wrap_witness :
    (RangeGauge.inv RangeGauge.new = true ∧
     GOp.noWrap RangeGauge.new [GOp.incBy 3, GOp.decBy 2] = true) ∧
    ((GOp.applyAll RangeGauge.new [GOp.incBy 3, GOp.decBy 2]).encode.1.2.1 ≤ 3 ∧
      3 ≤ (GOp.applyAll RangeGauge.new [GOp.incBy 3, GOp.decBy 2]).encode.1.2.2) :=
  ⟨⟨by decide, by decide⟩,
    (rangeGauge_bracketing_no_wrap RangeGauge.new [GOp.incBy 3, GOp.decBy 2]
      (by decide) (by decide)).2 3 (by decide)⟩

lemma logCells_set_getD_ne (l : List Logger) :
    ∀ (i j : Nat) (x d : Logger), i ≠ j → (l.set i x).getD j d = l.getD j d := by
  induction l with
  | nil =>
    intro i j x d hij
    rfl
  | cons a t ih =>
    intro i j x d hij
    cases i with
    | zero =>
      cases j with
      | zero => exact absurd rfl hij
      | succ j => rfl
    | succ i =>
      cases j with
      | zero => rfl
      | succ j => exact ih i j x d (fun h => hij (by rw [h]))

lemma logCells_set_getD_self (l : List Logger) :
    ∀ (i : Nat) (x d : Logger), i < l.length → (l.set i x).getD i d = x := by
  induction l with
  | nil =>
    intro i x d h
    exact absurd h (Nat.not_lt_zero i)
  | cons a t ih =>
    intro i x d h
    cases i with
    | zero => rfl
    | succ i => exact ih i x d (Nat.lt_of_succ_lt_succ h)

lemma readLog_writeLog_same (st : LogState) (r : LogRef) (l : Logger)
    (h : r < st.cells.length) : (st.writeLog r l).readLog r = l :=
  logCells_set_getD_self st.cells r l ⟨[]⟩ h

lemma readLog_writeLog_ne (st : LogState) (r r2 : LogRef) (l : Logger)
    (h : r ≠ r2) : (st.writeLog r l).readLog r2 = st.readLog r2 :=
  logCells_set_getD_ne st.cells r r2 l ⟨[]⟩ h

lemma add_log_fields_readLog_ne (st : LogState) (fs : List LogField) (r : LogRef)
    (h : st.current_log ≠ r) : (st.add_log_fields fs).readLog r = st.readLog r :=
  readLog_writeLog_ne st st.current_log r ((st.readLog st.current_log).child fs) h

lemma fork_readLog_new (st : LogState) :
    st.fork.2.readLog st.fork.1 = (st.readLog st.current_log).child [] := by
  show (st.cells ++ [(st.readLog st.current_log).child []]).getD st.cells.length ⟨[]⟩ = _
  rw [List.getD_append_right _ _ _ _ (le_refl _), Nat.sub_self]
  rfl

lemma fork_readLog_old (st : LogState) (r : LogRef) (h : r < st.cells.length) :
    st.fork.2.readLog r = st.readLog r := by
  show (st.cells ++ [(st.readLog st.current_log).child []]).getD r ⟨[]⟩ = _
  exact List.getD_append _ _ _ _ h

/-- C6: current_log never fails: it returns the most recently pushed shared
log handle when the calling context's stack is non-empty, and the
process-wide root log when the stack is empty; it is a total function with
no error outcome. -/
theorem current_log_never_fails (st : LogState) :
    (st.stack = [] → st.current_log = st.root) ∧
    ∀ r t, st.stack = r :: t → st.current_log = r := by
  constructor
  · intro h
    show st.stackCurrent.getD st.root = st.root
    rw [LogState.stackCurrent, h]
    rfl
  · intro r t h
    show st.stackCurrent.getD st.root = r
    rw [LogState.stackCurrent, h]
    rfl

/-- Witness for C6: with an empty stack the root (here cell 5) is resolved;
with stack `[2]` the top entry 2 is resolved. -/
theorem current_log_never_fails_witness :
    ((⟨[⟨[]⟩], 5, []⟩ : LogState).current_log = 5) ∧
    ((⟨[⟨[]⟩], 5, [2]⟩ : LogState).current_log = 2) :=
  ⟨(current_log_never_fails ⟨[⟨[]⟩], 5, []⟩).1 rfl,
   (current_log_never_fails ⟨[⟨[]⟩], 5, [2]⟩).2 2 [] rfl⟩

/-- C8: add_log_fields mutates the shared cell in place: every alias of the
resolved handle (any reference equal to it, captured without a fresh
current_log call) reads the derived logger with the merged fields
afterwards, and every other cell is untouched. -/
theorem add_log_fields_mutates_shared_cell (st : LogState) (fs : List LogField)
    (h : LogRef) (halias : h = st.current_log)
    (hwf : st.current_log < st.cells.length) :
    (st.add_log_fields fs).readLog h = (st.readLog h).child fs ∧
    ∀ r, r ≠ st.current_log → (st.add_log_fields fs).readLog r = st.readLog r := by
  constructor
  · subst halias
    exact readLog_writeLog_same st st.current_log _ hwf
  · intro r hr
    exact add_log_fields_readLog_ne st fs r (fun he => hr he.symm)

/-- Witness for C8 on the one-cell state with root 0: the alias 0 sees the
merged field. -/
theorem add_log_fields_mutates_shared_cell_witness :
    ((0 : LogRef) = LogState.current_log ⟨[⟨[1]⟩], 0, []⟩ ∧
      LogState.current_log ⟨[⟨[1]⟩], 0, []⟩ < 1) ∧
    (LogState.add_log_fields ⟨[⟨[1]⟩], 0, []⟩ [2]).readLog 0 =
      (LogState.readLog ⟨[⟨[1]⟩], 0, []⟩ 0).child [2] :=
  ⟨⟨by decide, by decide⟩,
    (add_log_fields_mutates_shared_cell ⟨[⟨[1]⟩], 0, []⟩ [2] 0 (by decide)
      (by decide)).1⟩

/-- C7: fork allocates a brand-new independently-lockable cell, seeded from
the current log's field state at fork time; add_log_fields through the
forked handle (entered as a scope) leaves what the original handle resolves
to unchanged, and mutation through the original handle leaves the forked
cell unchanged. -/
theorem fork_isolates_handles (st : LogState) (fs fs2 : List LogField)
    (hwf : st.current_log < st.cells.length) :
    (st.fork.1 ≠ st.current_log) ∧
    (st.fork.2.current_log = st.current_log) ∧
    (st.fork.2.readLog st.fork.1 = (st.readLog st.current_log).child []) ∧
    (((st.fork.2.pushScope st.fork.1).add_log_fields fs).readLog st.current_log =
      st.readLog st.current_log) ∧
    ((st.fork.2.add_log_fields fs2).readLog st.fork.1 = st.fork.2.readLog st.fork.1) := by
  refine ⟨?_, rfl, fork_readLog_new st, ?_, ?_⟩
  · show st.cells.length ≠ st.current_log
    exact ne_of_gt hwf
  · have h1 : ((st.fork.2.pushScope st.fork.1).add_log_fields fs).readLog st.current_log
        = (st.fork.2.pushScope st.fork.1).readLog st.current_log := by
      apply add_log_fields_readLog_ne
      show st.cells.length ≠ st.current_log
      exact ne_of_gt hwf
    have h2 : (st.fork.2.pushScope st.fork.1).readLog st.current_log
        = st.fork.2.readLog st.current_log := rfl
    rw [h1, h2, fork_readLog_old st st.current_log hwf]
  · apply add_log_fields_readLog_ne
    show st.current_log ≠ st.cells.length
    exact ne_of_lt hwf

/-- Witness for C7 on the one-cell state: the fork gets cell 1, distinct from
the original's cell 0, and a mutation through the fork is invisible there. -/
theorem fork_isolates_handles_witness :
    (LogState.current_log ⟨[⟨[1]⟩], 0, []⟩ < 1) ∧
    ((LogState.fork ⟨[⟨[1]⟩], 0, []⟩).1 ≠ LogState.current_log ⟨[⟨[1]⟩], 0, []⟩) ∧
    (((LogState.fork ⟨[⟨[1]⟩], 0, []⟩).2.pushScope
        (LogState.fork ⟨[⟨[1]⟩], 0, []⟩).1).add_log_fields [2]).readLog
        (LogState.current_log ⟨[⟨[1]⟩], 0, []⟩) =
      LogState.readLog ⟨[⟨[1]⟩], 0, []⟩ (LogState.current_log ⟨[⟨[1]⟩], 0, []⟩) :=
  ⟨by decide,
   (fork_isolates_handles ⟨[⟨[1]⟩], 0, []⟩ [2] [3] (by decide)).1,
   (fork_isolates_handles ⟨[⟨[1]⟩], 0, []⟩ [2] [3] (by decide)).2.2.2.1⟩

/-- C9: for every well-nested program and every nesting depth, a scope pushes
its value on entry and pops exactly it on exit — on the normal and on the
error/unwind path alike — so after a program runs the stack, and hence the
result of current(), is exactly what it was before; inside a scope the
pushed value is current, and an empty stack yields nothing. -/
theorem scope_exit_restores_current (p : ScopeProg) (st : LogState) :
    ((p.run st).2.stack = st.stack) ∧
    ((p.run st).2.stackCurrent = st.stackCurrent) ∧
    (∀ r : LogRef, (st.pushScope r).stackCurrent = some r ∧
      (st.pushScope r).popScope = st) ∧
    (LogState.stackCurrent ⟨st.cells, st.root, []⟩ = none) := by
  have hmain : ∀ (q : ScopeProg) (s : LogState), (q.run s).2.stack = s.stack := by
    intro q
    induction q with
    | skip => intro s; rfl
    | act f => intro s; rfl
    | fail => intro s; rfl
    | seq a b iha ihb =>
      intro s
      show (if (a.run s).1 then b.run (a.run s).2 else (false, (a.run s).2)).2.stack
        = s.stack
      by_cases h : (a.run s).1
      · rw [if_pos h, ihb, iha]
      · rw [if_neg h]
        exact iha s
    | enter v body ihb =>
      intro s
      show (body.run (s.pushScope v)).2.stack.tail = s.stack
      rw [ihb]
      rfl
  refine ⟨hmain p st, ?_, ?_, rfl⟩
  · show ((p.run st).2).stack.head? = st.stack.head?
    rw [hmain p st]
  · intro r
    exact ⟨rfl, rfl⟩
